import Mathlib

/-!
# Verification of the vaultphrases derivation core

A shallow embedding of the core of the `vaultphrases` repository
(`src/vaultphrases/{utils,derive,wordlist}.py`), together with proofs of the
behavioural claims made by its specification.

Bytes are modelled as `Nat` values (< 256 wherever the code produces them),
byte strings as `List Nat`, and Python text as Lean `String` / `List Char`.
Python's `hashlib.sha256` and `hmac` are embedded as executable FIPS-180-4
SHA-256 and RFC-2104 HMAC over byte lists, and `argon2.low_level
.hash_secret_raw` — an external C primitive whose internals the repository
does not contain — is treated as an uninterpreted function parameter, so
every theorem about `derive_master_key` holds for any Argon2id
implementation.
-/

namespace Vaultphrases

/-! ## 32-bit word arithmetic (Python ints restricted mod 2^32, as used by SHA-256) -/

/-- Truncate to a 32-bit word. -/
def w32 (n : Nat) : Nat := n % 4294967296

/-- Rotate a 32-bit word right by `n` bit positions. -/
def rotr (x n : Nat) : Nat := w32 ((x >>> n) ||| (x <<< (32 - n)))

/-- SHA-256 `Ch e f g = (e ∧ f) ⊕ (¬e ∧ g)`; complement on 32 bits. -/
def sChoice (e f g : Nat) : Nat := (e &&& f) ^^^ ((4294967295 - e) &&& g)

/-- SHA-256 `Maj a b c`. -/
def sMaj (a b c : Nat) : Nat := (a &&& b) ^^^ (a &&& c) ^^^ (b &&& c)

/-- SHA-256 Σ₀. -/
def bigSigma0 (a : Nat) : Nat := rotr a 2 ^^^ rotr a 13 ^^^ rotr a 22

/-- SHA-256 Σ₁. -/
def bigSigma1 (e : Nat) : Nat := rotr e 6 ^^^ rotr e 11 ^^^ rotr e 25

/-- SHA-256 σ₀. -/
def smallSigma0 (x : Nat) : Nat := rotr x 7 ^^^ rotr x 18 ^^^ (x >>> 3)

/-- SHA-256 σ₁. -/
def smallSigma1 (x : Nat) : Nat := rotr x 17 ^^^ rotr x 19 ^^^ (x >>> 10)

/-- The 64 SHA-256 round constants. -/
def sha256K : List Nat :=
  [1116352408, 1899447441, 3049323471, 3921009573, 961987163,
   1508970993, 2453635748, 2870763221, 3624381080, 310598401,
   607225278, 1426881987, 1925078388, 2162078206, 2614888103,
   3248222580, 3835390401, 4022224774, 264347078, 604807628,
   770255983, 1249150122, 1555081692, 1996064986, 2554220882,
   2821834349, 2952996808, 3210313671, 3336571891, 3584528711,
   113926993, 338241895, 666307205, 773529912, 1294757372,
   1396182291, 1695183700, 1986661051, 2177026350, 2456956037,
   2730485921, 2820302411, 3259730800, 3345764771, 3516065817,
   3600352804, 4094571909, 275423344, 430227734, 506948616,
   659060556, 883997877, 958139571, 1322822218, 1537002063,
   1747873779, 1955562222, 2024104815, 2227730452, 2361852424,
   2428436474, 2756734187, 3204031479, 3329325298]

/-- The eight 32-bit SHA-256 working variables. -/
structure Hash8 where
  a : Nat
  b : Nat
  c : Nat
  d : Nat
  e : Nat
  f : Nat
  g : Nat
  h : Nat
deriving Repr, DecidableEq

/-- SHA-256 initial hash value. -/
def sha256Init : Hash8 :=
  ⟨1779033703, 3144134277, 1013904242, 2773480762,
   1359893119, 2600822924, 528734635, 1541459225⟩

/-- One SHA-256 round with round constant `k` and schedule word `w`. -/
def sha256Round (st : Hash8) (k w : Nat) : Hash8 :=
  let t1 := w32 (st.h + bigSigma1 st.e + sChoice st.e st.f st.g + k + w)
  let t2 := w32 (bigSigma0 st.a + sMaj st.a st.b st.c)
  ⟨w32 (t1 + t2), st.a, st.b, st.c, w32 (st.d + t1), st.e, st.f, st.g⟩

/-- Extend a 16-word message block by `n` further schedule words
(`W[i] = σ₁ W[i-2] + W[i-7] + σ₀ W[i-15] + W[i-16] mod 2^32`). -/
def extendSchedule (ws : List Nat) : Nat → List Nat
  | 0 => ws
  | n + 1 =>
    let prev := extendSchedule ws n
    prev ++ [w32 (smallSigma1 (prev.getD (prev.length - 2) 0) +
                  prev.getD (prev.length - 7) 0 +
                  smallSigma0 (prev.getD (prev.length - 15) 0) +
                  prev.getD (prev.length - 16) 0)]

/-- Compress one 512-bit block (16 32-bit words) into the running state. -/
def compressBlock (st : Hash8) (block : List Nat) : Hash8 :=
  let ws := extendSchedule block 48
  let fin := (sha256K.zip ws).foldl (fun s kw => sha256Round s kw.1 kw.2) st
  ⟨w32 (st.a + fin.a), w32 (st.b + fin.b), w32 (st.c + fin.c), w32 (st.d + fin.d),
   w32 (st.e + fin.e), w32 (st.f + fin.f), w32 (st.g + fin.g), w32 (st.h + fin.h)⟩

/-- Big-endian bytes of `n`, `k` bytes wide. -/
def natToBytesBE : Nat → Nat → List Nat
  | 0, _ => []
  | k + 1, n => natToBytesBE k (n / 256) ++ [n % 256]

/-- FIPS-180-4 padding: append `0x80`, zeros to 56 mod 64, then the 64-bit
big-endian bit length. -/
def padMessage (msg : List Nat) : List Nat :=
  msg ++ [0x80] ++ List.replicate ((119 - msg.length % 64) % 64) 0 ++
    natToBytesBE 8 (8 * msg.length)

/-- Group bytes into big-endian 32-bit words (input length a multiple of 4). -/
def bytesToWordsBE : List Nat → List Nat
  | a :: b :: c :: d :: rest =>
    (a * 16777216 + b * 65536 + c * 256 + d) :: bytesToWordsBE rest
  | _ => []

/-- Run the compression function over `n` consecutive 16-word blocks. -/
def processBlocks (st : Hash8) (ws : List Nat) : Nat → Hash8
  | 0 => st
  | n + 1 => processBlocks (compressBlock st (ws.take 16)) (ws.drop 16) n

/-- Big-endian bytes of one 32-bit word. -/
def wordBytes (word : Nat) : List Nat :=
  [word / 16777216 % 256, word / 65536 % 256, word / 256 % 256, word % 256]

/-- The 32 digest bytes of a final state. -/
def digestBytes (st : Hash8) : List Nat :=
  wordBytes st.a ++ wordBytes st.b ++ wordBytes st.c ++ wordBytes st.d ++
  wordBytes st.e ++ wordBytes st.f ++ wordBytes st.g ++ wordBytes st.h

/-- SHA-256 of a byte string (the embedding of Python's
`hashlib.sha256(msg).digest()`). -/
def sha256 (msg : List Nat) : List Nat :=
  digestBytes (processBlocks sha256Init (bytesToWordsBE (padMessage msg))
    ((padMessage msg).length / 64))

/-- HMAC-SHA256 (the embedding of Python's
`hmac.new(key, msg, hashlib.sha256).digest()`, RFC 2104 with a 64-byte
block size). -/
def hmacSha256 (key msg : List Nat) : List Nat :=
  let k0 := if 64 < key.length then sha256 key else key
  let k1 := k0 ++ List.replicate (64 - k0.length) 0
  sha256 ((k1.map (fun b => b ^^^ 0x5c)) ++
    sha256 ((k1.map (fun b => b ^^^ 0x36)) ++ msg))

/-! ## UTF-8 encoding (Python's `str.encode("utf-8")`) -/

/-- UTF-8 bytes of a single code point. -/
def utf8Char (c : Char) : List Nat :=
  let n := c.toNat
  if n < 0x80 then [n]
  else if n < 0x800 then
    [0xC0 ||| (n >>> 6), 0x80 ||| (n &&& 0x3F)]
  else if n < 0x10000 then
    [0xE0 ||| (n >>> 12), 0x80 ||| ((n >>> 6) &&& 0x3F), 0x80 ||| (n &&& 0x3F)]
  else
    [0xF0 ||| (n >>> 18), 0x80 ||| ((n >>> 12) &&& 0x3F),
     0x80 ||| ((n >>> 6) &&& 0x3F), 0x80 ||| (n &&& 0x3F)]

/-- UTF-8 encoding of a string. -/
def utf8Encode (s : String) : List Nat := (s.data.map utf8Char).flatten

/-! ## Python text primitives used by `utils.normalise_phrase`
(`" ".join(phrase.strip().lower().split())`), modelled at the ASCII level:
the repository's phrases, tests and frozen vectors are all ASCII. -/

/-- The ASCII whitespace characters recognised by Python's `str.strip()` /
`str.split()`: space, tab, newline, carriage return, vertical tab, form feed. -/
def isPySpace (c : Char) : Bool :=
  c.toNat = 32 || c.toNat = 9 || c.toNat = 10 ||
  c.toNat = 13 || c.toNat = 11 || c.toNat = 12

/-- Python `str.lower()` on one character (ASCII range: `A`-`Z` map down by
32, everything else is fixed). -/
def pyLower (c : Char) : Char :=
  if 65 ≤ c.toNat ∧ c.toNat ≤ 90 then Char.ofNat (c.toNat + 32) else c

/-- Python `str.strip()`: drop leading and trailing whitespace. -/
def pyStrip (l : List Char) : List Char :=
  (((l.dropWhile isPySpace).reverse.dropWhile isPySpace)).reverse

/-- Worker for `pySplit`: `acc` holds the (reversed) characters of the token
currently being read. -/
def pySplitAux : List Char → List Char → List (List Char)
  | [], acc => if acc.isEmpty then [] else [acc.reverse]
  | c :: cs, acc =>
    if isPySpace c then
      if acc.isEmpty then pySplitAux cs [] else acc.reverse :: pySplitAux cs []
    else pySplitAux cs (c :: acc)

/-- Python `str.split()` with no separator: whitespace-delimited tokens, no
empty tokens, leading/trailing whitespace ignored. -/
def pySplit (l : List Char) : List (List Char) := pySplitAux l []

/-- Python `" ".join(tokens)`. -/
def joinSpace : List (List Char) → List Char
  | [] => []
  | [t] => t
  | t :: t' :: ts => t ++ ' ' :: joinSpace (t' :: ts)

/-- The function `utils.normalise_phrase`: `" ".join(phrase.strip().lower().split())` —
trim, lowercase, collapse internal whitespace runs to single spaces. -/
def normalise_phrase (phrase : String) : String :=
  ⟨joinSpace (pySplit ((pyStrip phrase.data).map pyLower))⟩

/-! ## `constants.py` -/

/-- Constant `ROOT_SALT_V1 = b"family-password-root-v1"`. -/
def ROOT_SALT_V1 : List Nat := utf8Encode "family-password-root-v1"

/-- Constant `ARGON2_MEMORY_COST = 256 * 1024`. -/
def ARGON2_MEMORY_COST : Nat := 256 * 1024

/-- Constant `ARGON2_TIME_COST = 3`. -/
def ARGON2_TIME_COST : Nat := 3

/-- Constant `ARGON2_PARALLELISM = 1`. -/
def ARGON2_PARALLELISM : Nat := 1

/-- Constant `ARGON2_HASH_LENGTH = 32`. -/
def ARGON2_HASH_LENGTH : Nat := 32

/-- Constant `ARGON2_TEST_MEMORY_COST = 8 * 1024`. -/
def ARGON2_TEST_MEMORY_COST : Nat := 8 * 1024

/-- Constant `ARGON2_TEST_TIME_COST = 1`. -/
def ARGON2_TEST_TIME_COST : Nat := 1

/-- Constant `ARGON2_TEST_PARALLELISM = 1`. -/
def ARGON2_TEST_PARALLELISM : Nat := 1

/-- Constant `LABEL_HOT = "HOT_PHRASE_V1"`. -/
def LABEL_HOT : String := "HOT_PHRASE_V1"

/-- Constant `LABEL_COLD = "COLD_PHRASE_V1"`. -/
def LABEL_COLD : String := "COLD_PHRASE_V1"

/-! ## `derive.py` -/

/-- The argument record of one `argon2.low_level.hash_secret_raw` call, in
the keyword order of the call site in `derive_master_key`. -/
structure Argon2Call where
  secret : List Nat
  salt : List Nat
  timeCost : Nat
  memoryCost : Nat
  parallelism : Nat
  hashLen : Nat
deriving Repr, DecidableEq

/-- The function `derive.derive_master_key`: normalise the root phrase, encode it as
UTF-8, pick the production or test Argon2id cost parameters, and call
Argon2id on (phrase bytes, `ROOT_SALT_V1`, costs, 32). The Argon2id
primitive itself is an external C library, so it enters as the function
parameter `argon2id`; every theorem below holds for each choice of it. -/
def derive_master_key (argon2id : Argon2Call → List Nat)
    (root_phrase : String) (test_mode : Bool) : List Nat :=
  let normalised := normalise_phrase root_phrase
  let phraseBytes := utf8Encode normalised
  let memoryCost := if test_mode then ARGON2_TEST_MEMORY_COST else ARGON2_MEMORY_COST
  let timeCost := if test_mode then ARGON2_TEST_TIME_COST else ARGON2_TIME_COST
  let parallelism := if test_mode then ARGON2_TEST_PARALLELISM else ARGON2_PARALLELISM
  argon2id ⟨phraseBytes, ROOT_SALT_V1, timeCost, memoryCost, parallelism, ARGON2_HASH_LENGTH⟩

/-- The function `derive.hkdf_child`: `hmac.new(master_key, label.encode("utf-8"),
hashlib.sha256).digest()[:out_len]`. Note the code has no length check —
`[:out_len]` is all that happens to the 32-byte digest. -/
def hkdf_child (master_key : List Nat) (label : String) (out_len : Nat) : List Nat :=
  (hmacSha256 master_key (utf8Encode label)).take out_len

/-! ## `wordlist.py` -/

/-- The exception `wordlist.WordlistError`, carrying its message. Only the
"Wordlist is empty" case is reachable once content is in hand; the
file-not-found / unreadable / undecodable cases live in the caller's I/O. -/
inductive WordlistError where
  | wordlistError (msg : String)
deriving Repr, DecidableEq

/-- One iteration of the `load_wordlist` line loop: strip the line, skip it
when empty or starting with `#`, otherwise split on whitespace and keep the
sole token or the last token. -/
def lineWord (line : List Char) : Option (List Char) :=
  let l := pyStrip line
  if l.isEmpty then none
  else if l.head? = some '#' then none
  else
    match pySplit l with
    | [] => none
    | [w] => some w
    | w :: ws => some ((w :: ws).getLastD [])

/-- The function `wordlist.load_wordlist`, on content already read: the caller's line
iteration is modelled as the list of the file's lines. Words are collected
in file order; an empty result raises `WordlistError("Wordlist is empty")`. -/
def load_wordlist (fileLines : List (List Char)) :
    Except WordlistError (List (List Char)) :=
  let words := fileLines.filterMap lineWord
  if words.isEmpty then Except.error (WordlistError.wordlistError "Wordlist is empty")
  else Except.ok words

/-- Python `int.from_bytes(raw, "big")`. -/
def bytesToNat (raw : List Nat) : Nat :=
  raw.foldl (fun acc b => 256 * acc + b) 0

/-- The loop of `bytes_to_phrase`: `word_count` times, emit
`words[num % base]` and divide `num` by `base` (`base = len(words)`;
indexing is total here via `getD`, which agrees with Python's `words[idx]`
because `idx = num % base < base` whenever `words` is non-empty). -/
def phraseLoop (words : List String) (num : Nat) : Nat → List String
  | 0 => []
  | k + 1 =>
    words.getD (num % words.length) "" :: phraseLoop words (num / words.length) k

/-- The function `wordlist.bytes_to_phrase`: read `raw` as a big-endian integer, extract
`word_count` indices least-significant first by mod/div on `len(words)`,
join with `delimiter`. `word_count` is an `Int` because Python's
`range(word_count)` is empty for a non-positive count. -/
def bytes_to_phrase (raw : List Nat) (words : List String)
    (word_count : Int) (delimiter : String) : String :=
  String.intercalate delimiter (phraseLoop words (bytesToNat raw) word_count.toNat)

/-! ## Definitions taken from the specification's words (for refinement
claims: each is compared against the corresponding source embedding). -/

/-- From the spec's words (§4.5): "interpret `raw` as a single big-endian
unsigned integer `N`. Repeat `count` times: `index = N mod len(words)`;
append `words[index]`; `N = N div len(words)`", emitted in extraction order. -/
def specEncodeWords (words : List String) (N : Nat) : Nat → List String
  | 0 => []
  | count + 1 =>
    words.getD (N % words.length) "" :: specEncodeWords words (N / words.length) count

/-- From the spec's words (§4.5): the delimiter-join of `specEncodeWords`
over the big-endian value of `raw`. -/
def specEncode (raw : List Nat) (words : List String)
    (count : Nat) (delimiter : String) : String :=
  String.intercalate delimiter (specEncodeWords words (bytesToNat raw) count)

/-- From the claim's words (C6): a line blank after stripping is skipped, a
line whose first non-whitespace character is `#` is skipped, and otherwise
the line contributes its last whitespace-separated token. -/
def specLineToken (line : List Char) : Option (List Char) :=
  if pyStrip line = [] then none
  else if (line.dropWhile isPySpace).head? = some '#' then none
  else (pySplit line).getLast?

/-! ## The repository's frozen test vectors (`tests/test_reproducibility.py`) -/

/-- Frozen vector `TEST_VECTOR_MASTER_KEY_HEX = "30d853c5...02e0ecc4"` as bytes. -/
def testVectorMasterKey : List Nat :=
  [0x30, 0xd8, 0x53, 0xc5, 0x09, 0xf2, 0x8e, 0xfb, 0x0b, 0x67, 0xad, 0x77,
   0x6e, 0xa5, 0x0d, 0x94, 0xa0, 0xa1, 0x06, 0xa6, 0xba, 0x48, 0x86, 0x53,
   0x4f, 0xf9, 0xc7, 0x3b, 0x02, 0xe0, 0xec, 0xc4]

/-- Frozen vector `TEST_VECTOR_HOT_KEY_HEX = "c6e7a0f9...de2e5c13"` as bytes. -/
def testVectorHotKey : List Nat :=
  [0xc6, 0xe7, 0xa0, 0xf9, 0x77, 0x7d, 0x86, 0x80, 0x3e, 0xb5, 0x58, 0x15,
   0x5c, 0xfc, 0x0e, 0x8c, 0xda, 0x18, 0xbd, 0x77, 0xf5, 0x1b, 0x02, 0xa9,
   0x31, 0xcb, 0x25, 0xfe, 0xde, 0x2e, 0x5c, 0x13]

/-- The fixed 8-word test wordlist of `test_bytes_to_phrase_stability`. -/
def testWordlist8 : List String :=
  ["alpha", "bravo", "charlie", "delta", "echo", "foxtrot", "golf", "hotel"]

/-! ## Basic facts about the hash embedding -/

theorem digestBytes_length (st : Hash8) : (digestBytes st).length = 32 := by
  simp [digestBytes, wordBytes]

theorem sha256_length (msg : List Nat) : (sha256 msg).length = 32 :=
  digestBytes_length _

theorem hmacSha256_length (key msg : List Nat) :
    (hmacSha256 key msg).length = 32 :=
  sha256_length _

set_option maxRecDepth 400000 in
/-- Sanity anchor for the SHA-256 embedding: the FIPS-180-4 test vector for
the message `"abc"`. -/
theorem sha256_abc_vector :
    sha256 (utf8Encode "abc") =
      [0xba, 0x78, 0x16, 0xbf, 0x8f, 0x01, 0xcf, 0xea, 0x41, 0x41, 0x40, 0xde,
       0x5d, 0xae, 0x22, 0x23, 0xb0, 0x03, 0x61, 0xa3, 0x96, 0x17, 0x7a, 0x9c,
       0xb4, 0x10, 0xff, 0x61, 0xf2, 0x00, 0x15, 0xad] := by
  decide

set_option maxRecDepth 400000 in
/-- Sanity anchor for the HMAC embedding against the repository's own frozen
vectors: the frozen fast-mode HOT child key is precisely
HMAC-SHA256(frozen master key, `LABEL_HOT`). -/
theorem hot_child_key_vector :
    hmacSha256 testVectorMasterKey (utf8Encode LABEL_HOT) = testVectorHotKey := by
  decide


/-! ## Character-level lemmas -/

theorem char_toNat_ofNat_of_lt {n : Nat} (h : n < 55296) :
    (Char.ofNat n).toNat = n := by
  rw [Char.ofNat, dif_pos (Or.inl h)]
  rfl

theorem pyLower_pyLower (c : Char) : pyLower (pyLower c) = pyLower c := by
  unfold pyLower
  by_cases h : 65 ≤ c.toNat ∧ c.toNat ≤ 90
  · rw [if_pos h]
    have ht : (Char.ofNat (c.toNat + 32)).toNat = c.toNat + 32 :=
      char_toNat_ofNat_of_lt (by omega)
    rw [if_neg (by rw [ht]; omega)]
  · rw [if_neg h, if_neg h]

theorem isPySpace_eq_false_of_bounds {c : Char}
    (h : 33 ≤ c.toNat) : isPySpace c = false := by
  simp only [isPySpace, Bool.or_eq_false_iff, decide_eq_false_iff_not]
  omega

theorem isPySpace_pyLower (c : Char) : isPySpace (pyLower c) = isPySpace c := by
  unfold pyLower
  by_cases h : 65 ≤ c.toNat ∧ c.toNat ≤ 90
  · rw [if_pos h]
    have ht : (Char.ofNat (c.toNat + 32)).toNat = c.toNat + 32 :=
      char_toNat_ofNat_of_lt (by omega)
    rw [isPySpace_eq_false_of_bounds (by omega),
      isPySpace_eq_false_of_bounds (by omega)]
  · rw [if_neg h]

/-! ## Split/strip machinery lemmas -/

/-- Reading a whitespace-free chunk just extends the accumulator. -/
theorem pySplitAux_nonspace_run (t : List Char)
    (ht : ∀ c ∈ t, isPySpace c = false) :
    ∀ rest acc, pySplitAux (t ++ rest) acc = pySplitAux rest (t.reverse ++ acc) := by
  induction t with
  | nil => intro rest acc; simp
  | cons c t' ih =>
    intro rest acc
    have hc : isPySpace c = false := ht c (List.mem_cons_self c t')
    simp only [List.cons_append, pySplitAux, List.append_eq, hc,
      Bool.false_eq_true, if_false]
    rw [ih (fun d hd => ht d (List.mem_cons_of_mem c hd)) rest (c :: acc)]
    simp

/-- Splitting an all-whitespace list flushes the accumulator and stops. -/
theorem pySplitAux_all_space (sp : List Char)
    (hsp : ∀ c ∈ sp, isPySpace c = true) :
    ∀ acc, pySplitAux sp acc = if acc.isEmpty then [] else [acc.reverse] := by
  induction sp with
  | nil => intro acc; rfl
  | cons c sp' ih =>
    intro acc
    have hc : isPySpace c = true := hsp c (List.mem_cons_self c sp')
    have ih0 := ih (fun d hd => hsp d (List.mem_cons_of_mem c hd)) []
    simp only [List.isEmpty_nil, if_true] at ih0
    simp only [pySplitAux, hc, if_true]
    by_cases ha : acc.isEmpty
    · rw [if_pos ha, if_pos ha, ih0]
    · rw [if_neg ha, if_neg ha, ih0]

/-- Trailing whitespace never changes a split. -/
theorem pySplitAux_append_spaces (l sp : List Char)
    (hsp : ∀ c ∈ sp, isPySpace c = true) :
    ∀ acc, pySplitAux (l ++ sp) acc = pySplitAux l acc := by
  induction l with
  | nil =>
    intro acc
    rw [List.nil_append, pySplitAux_all_space sp hsp acc]
    rfl
  | cons c l' ih =>
    intro acc
    simp only [List.cons_append, pySplitAux, List.append_eq]
    by_cases hc : isPySpace c
    · rw [if_pos hc, if_pos hc]
      by_cases ha : acc.isEmpty
      · rw [if_pos ha, if_pos ha, ih]
      · rw [if_neg ha, if_neg ha, ih]
    · rw [if_neg hc, if_neg hc, ih]

/-- Leading whitespace never changes a split. -/
theorem pySplitAux_dropWhile (l : List Char) :
    pySplitAux (l.dropWhile isPySpace) [] = pySplitAux l [] := by
  induction l with
  | nil => rfl
  | cons c l' ih =>
    by_cases hc : isPySpace c
    · rw [List.dropWhile_cons_of_pos hc, ih]
      simp [pySplitAux, hc]
    · rw [List.dropWhile_cons_of_neg hc]

/-- The `dropWhile` decomposition of `pyStrip`: the left-stripped list is the
fully stripped list followed by its trailing whitespace. -/
theorem dropWhile_eq_pyStrip_append (l : List Char) :
    ∃ sp, (∀ c ∈ sp, isPySpace c = true) ∧
      l.dropWhile isPySpace = pyStrip l ++ sp := by
  refine ⟨((l.dropWhile isPySpace).reverse.takeWhile isPySpace).reverse, ?_, ?_⟩
  · intro c hc
    rw [List.mem_reverse] at hc
    exact List.mem_takeWhile_imp hc
  · conv_lhs => rw [← List.reverse_reverse (l.dropWhile isPySpace),
      ← List.takeWhile_append_dropWhile (p := isPySpace)
        (l := (l.dropWhile isPySpace).reverse)]
    rw [List.reverse_append]
    rfl

/-- Stripping never changes a split. -/
theorem pySplit_pyStrip (l : List Char) : pySplit (pyStrip l) = pySplit l := by
  obtain ⟨sp, hsp, hdec⟩ := dropWhile_eq_pyStrip_append l
  unfold pySplit
  rw [← pySplitAux_dropWhile l, hdec, pySplitAux_append_spaces _ sp hsp]

/-- Every token a split produces is non-empty and whitespace-free. -/
theorem pySplitAux_tokens_good (l : List Char) :
    ∀ acc, (∀ c ∈ acc, isPySpace c = false) →
      ∀ t ∈ pySplitAux l acc, t ≠ [] ∧ ∀ c ∈ t, isPySpace c = false := by
  induction l with
  | nil =>
    intro acc hacc t ht
    simp only [pySplitAux] at ht
    by_cases ha : acc.isEmpty
    · rw [if_pos ha] at ht; exact absurd ht (List.not_mem_nil t)
    · rw [if_neg ha] at ht
      rcases List.mem_singleton.mp ht with rfl
      refine ⟨?_, fun c hc => hacc c (List.mem_reverse.mp hc)⟩
      intro h
      rw [List.isEmpty_iff] at ha
      exact ha (by simpa using congrArg List.reverse h)
  | cons c l' ih =>
    intro acc hacc t ht
    simp only [pySplitAux] at ht
    by_cases hc : isPySpace c
    · rw [if_pos hc] at ht
      by_cases ha : acc.isEmpty
      · rw [if_pos ha] at ht
        exact ih [] (fun d hd => absurd hd (List.not_mem_nil d)) t ht
      · rw [if_neg ha] at ht
        rcases List.mem_cons.mp ht with rfl | ht'
        · refine ⟨?_, fun d hd => hacc d (List.mem_reverse.mp hd)⟩
          intro h
          rw [List.isEmpty_iff] at ha
          exact ha (by simpa using congrArg List.reverse h)
        · exact ih [] (fun d hd => absurd hd (List.not_mem_nil d)) t ht'
    · rw [if_neg hc] at ht
      refine ih (c :: acc) ?_ t ht
      intro d hd
      rcases List.mem_cons.mp hd with rfl | hd'
      · exact Bool.eq_false_iff.mpr hc
      · exact hacc d hd'

/-- Splitting the space-join of good tokens recovers the tokens. -/
theorem pySplit_joinSpace (ts : List (List Char))
    (hts : ∀ t ∈ ts, t ≠ [] ∧ ∀ c ∈ t, isPySpace c = false) :
    pySplit (joinSpace ts) = ts := by
  induction ts with
  | nil => rfl
  | cons t ts' ih =>
    obtain ⟨htne, htns⟩ := hts t (List.mem_cons_self t ts')
    have hrevne : (t.reverse).isEmpty = false := by
      simp [htne]
    cases ts' with
    | nil =>
      show pySplitAux (joinSpace [t]) [] = [t]
      simp only [joinSpace]
      rw [show t = t ++ [] from (List.append_nil t).symm]
      rw [pySplitAux_nonspace_run t htns [] []]
      simp only [pySplitAux, List.append_nil, hrevne, Bool.false_eq_true, if_false]
      simp
    | cons t' ts'' =>
      show pySplitAux (joinSpace (t :: t' :: ts'')) [] = t :: t' :: ts''
      simp only [joinSpace]
      rw [pySplitAux_nonspace_run t htns (' ' :: joinSpace (t' :: ts'')) []]
      simp only [pySplitAux, List.append_nil]
      rw [if_pos (by decide), if_neg (by simp [hrevne, htne]), List.reverse_reverse]
      exact congrArg (t :: ·) (ih (fun u hu => hts u (List.mem_cons_of_mem t hu)))

theorem isEmpty_map (f : Char → Char) (l : List Char) :
    (l.map f).isEmpty = l.isEmpty := by
  cases l <;> rfl

/-- Splitting commutes with mapping a whitespace-class-preserving character
function. -/
theorem pySplitAux_map (f : Char → Char) (hf : ∀ c, isPySpace (f c) = isPySpace c)
    (l : List Char) :
    ∀ acc, pySplitAux (l.map f) (acc.map f) = (pySplitAux l acc).map (List.map f) := by
  induction l with
  | nil =>
    intro acc
    simp only [List.map_nil, pySplitAux, isEmpty_map]
    by_cases ha : acc.isEmpty
    · rw [if_pos ha, if_pos ha]
      rfl
    · rw [if_neg ha, if_neg ha]
      simp [List.map_reverse]
  | cons c l' ih =>
    intro acc
    simp only [List.map_cons, pySplitAux, hf c]
    by_cases hc : isPySpace c
    · rw [if_pos hc, if_pos hc]
      simp only [isEmpty_map]
      by_cases ha : acc.isEmpty
      · rw [if_pos ha, if_pos ha]
        exact ih []
      · rw [if_neg ha, if_neg ha]
        rw [show ([] : List Char) = List.map f [] from rfl, ih []]
        simp [List.map_reverse]
    · rw [if_neg hc, if_neg hc]
      rw [show f c :: List.map f acc = List.map f (c :: acc) from rfl, ih (c :: acc)]

/-- Corollary: `pySplit` commutes with `pyLower`. -/
theorem pySplit_map_pyLower (l : List Char) :
    pySplit (l.map pyLower) = (pySplit l).map (List.map pyLower) := by
  have := pySplitAux_map pyLower isPySpace_pyLower l []
  simpa [pySplit] using this

/-- Normalisation is idempotent (helper shared by several theorems below). -/
theorem normalise_phrase_idem (s : String) :
    normalise_phrase (normalise_phrase s) = normalise_phrase s := by
  have good : ∀ t ∈ pySplit ((pyStrip s.data).map pyLower),
      t ≠ [] ∧ ∀ c ∈ t, isPySpace c = false :=
    pySplitAux_tokens_good _ [] (fun c hc => absurd hc (List.not_mem_nil c))
  have fixed : List.map (List.map pyLower) (pySplit ((pyStrip s.data).map pyLower))
      = pySplit ((pyStrip s.data).map pyLower) := by
    rw [pySplit_map_pyLower, List.map_map]
    refine List.map_congr_left fun t _ => ?_
    show List.map pyLower (List.map pyLower t) = List.map pyLower t
    rw [List.map_map]
    exact List.map_congr_left fun a _ => pyLower_pyLower a
  have key : pySplit ((pyStrip (joinSpace (pySplit ((pyStrip s.data).map pyLower)))).map pyLower)
      = pySplit ((pyStrip s.data).map pyLower) := by
    calc pySplit ((pyStrip (joinSpace (pySplit ((pyStrip s.data).map pyLower)))).map pyLower)
        = (pySplit (pyStrip (joinSpace (pySplit ((pyStrip s.data).map pyLower))))).map
            (List.map pyLower) := pySplit_map_pyLower _
      _ = (pySplit (joinSpace (pySplit ((pyStrip s.data).map pyLower)))).map
            (List.map pyLower) := by rw [pySplit_pyStrip]
      _ = (pySplit ((pyStrip s.data).map pyLower)).map (List.map pyLower) := by
            rw [pySplit_joinSpace _ good]
      _ = pySplit ((pyStrip s.data).map pyLower) := fixed
  show (⟨joinSpace (pySplit ((pyStrip
      (joinSpace (pySplit ((pyStrip s.data).map pyLower)))).map pyLower))⟩ : String)
    = ⟨joinSpace (pySplit ((pyStrip s.data).map pyLower))⟩
  exact congrArg (fun l => String.mk (joinSpace l)) key

/-- The code-side line handler and the claim-side one agree on every line. -/
theorem lineWord_eq_specLineToken (line : List Char) :
    lineWord line = specLineToken line := by
  unfold lineWord specLineToken
  by_cases h0 : pyStrip line = []
  · simp [h0]
  · have hne : (pyStrip line).isEmpty = false := by simp [h0]
    obtain ⟨sp, hsp, hdec⟩ := dropWhile_eq_pyStrip_append line
    have hhead : (pyStrip line).head? = (line.dropWhile isPySpace).head? := by
      rw [hdec]
      cases hps : pyStrip line with
      | nil => exact absurd hps h0
      | cons a l' => simp
    rw [if_neg (by simp [hne]), if_neg h0, hhead]
    by_cases h1 : (line.dropWhile isPySpace).head? = some '#'
    · rw [if_pos h1, if_pos h1]
    · rw [if_neg h1, if_neg h1, pySplit_pyStrip]
      cases hsplit : pySplit line with
      | nil => rfl
      | cons w ws =>
        cases ws with
        | nil => simp
        | cons w' ws' =>
          obtain ⟨x, hx⟩ : ∃ x, (w :: w' :: ws').getLast? = some x :=
            ⟨(w :: w' :: ws').getLast (by simp), List.getLast?_eq_getLast _ (by simp)⟩
          simp [List.getLastD_eq_getLast?, hx]

/-- The code loop and the spec extraction produce the same word sequence. -/
theorem phraseLoop_eq_specEncodeWords (words : List String) :
    ∀ (k num : Nat), phraseLoop words num k = specEncodeWords words num k := by
  intro k
  induction k with
  | zero => intro num; rfl
  | succ k ih =>
    intro num
    simp only [phraseLoop, specEncodeWords, ih]

/-- Once the quotient has decayed to zero, every further extraction yields
index 0. -/
theorem specEncodeWords_zero (words : List String) :
    ∀ k, specEncodeWords words 0 k = List.replicate k (words.getD 0 "") := by
  intro k
  induction k with
  | zero => rfl
  | succ k ih =>
    simp only [specEncodeWords, Nat.zero_mod, Nat.zero_div, ih, List.replicate_succ]

/-- C1: for every byte string, non-empty word list, positive count and
delimiter, `bytes_to_phrase` is the delimiter-join of the spec's extraction
sequence — interpret the bytes big-endian, emit `words[N mod len]` then
divide, `count` times, in extraction order — and once `N` decays to zero the
remaining positions are all `words[0]`. -/
theorem bytes_to_phrase_matches_spec (raw : List Nat) (words : List String)
    (count : Int) (delimiter : String) (k : Nat)
    (_hw : words ≠ []) (_hc : 0 < count) :
    bytes_to_phrase raw words count delimiter =
      specEncode raw words count.toNat delimiter ∧
    specEncodeWords words 0 k = List.replicate k (words.getD 0 "") := by
  refine ⟨?_, specEncodeWords_zero words k⟩
  unfold bytes_to_phrase specEncode
  rw [phraseLoop_eq_specEncodeWords]

theorem bytes_to_phrase_matches_spec_witness :
    (["a", "b", "c"] : List String) ≠ [] ∧ (0 : Int) < 3 ∧
    (bytes_to_phrase [1, 2] ["a", "b", "c"] 3 "-" =
        specEncode [1, 2] ["a", "b", "c"] (Int.toNat 3) "-" ∧
      specEncodeWords ["a", "b", "c"] 0 2 =
        List.replicate 2 ((["a", "b", "c"] : List String).getD 0 "")) :=
  ⟨by decide, by decide,
    bytes_to_phrase_matches_spec [1, 2] ["a", "b", "c"] 3 "-" 2 (by decide) (by decide)⟩

/-- C2: on the frozen fast-mode HOT child-key bytes with the fixed 8-word
wordlist, 6 words joined by `"-"` give exactly the published passphrase. -/
theorem bytes_to_phrase_frozen_vector :
    bytes_to_phrase testVectorHotKey testWordlist8 6 "-" =
      "delta-charlie-alpha-golf-foxtrot-echo" := by
  decide

/-- C3: for every 32-byte master key, label and `out_len ≤ 32`, `hkdf_child`
is the `out_len`-byte prefix of HMAC-SHA256(master key, UTF-8 label); being
a Lean function of exactly these arguments it is in particular a pure
deterministic function of them. -/
theorem hkdf_child_is_hmac_take (master_key : List Nat) (label : String)
    (out_len : Nat) (_hmk : master_key.length = 32) (_hlen : out_len ≤ 32) :
    hkdf_child master_key label out_len =
      (hmacSha256 master_key (utf8Encode label)).take out_len := rfl

theorem hkdf_child_is_hmac_take_witness :
    (List.replicate 32 (0 : Nat)).length = 32 ∧ 16 ≤ 32 ∧
    hkdf_child (List.replicate 32 0) "HOT_PHRASE_V1" 16 =
      (hmacSha256 (List.replicate 32 0) (utf8Encode "HOT_PHRASE_V1")).take 16 :=
  ⟨by decide, by decide,
    hkdf_child_is_hmac_take (List.replicate 32 0) "HOT_PHRASE_V1" 16
      (by decide) (by decide)⟩

/-- C4: `derive_master_key` (for every Argon2id implementation and mode)
depends on the phrase only through `normalise_phrase`: phrases with equal
normalisations give equal master keys, and every phrase gives the same key
as its normalised form. -/
theorem derive_master_key_normalisation_invariant :
    (∀ (argon2id : Argon2Call → List Nat) (P Q : String) (mode : Bool),
        normalise_phrase P = normalise_phrase Q →
        derive_master_key argon2id P mode = derive_master_key argon2id Q mode) ∧
    (∀ (argon2id : Argon2Call → List Nat) (P : String) (mode : Bool),
        derive_master_key argon2id P mode =
          derive_master_key argon2id (normalise_phrase P) mode) := by
  constructor
  · intro f P Q m h
    unfold derive_master_key
    rw [h]
  · intro f P m
    unfold derive_master_key
    rw [normalise_phrase_idem]

theorem derive_master_key_normalisation_invariant_witness :
    normalise_phrase "  Correct   Horse  Battery   Staple  " =
      normalise_phrase "CORRECT HORSE BATTERY STAPLE" ∧
    derive_master_key (fun call => call.secret)
        "  Correct   Horse  Battery   Staple  " true =
      derive_master_key (fun call => call.secret)
        "CORRECT HORSE BATTERY STAPLE" true :=
  ⟨by decide,
    derive_master_key_normalisation_invariant.1 (fun call => call.secret)
      "  Correct   Horse  Battery   Staple  " "CORRECT HORSE BATTERY STAPLE"
      true (by decide)⟩

/-- C5: `normalise_phrase` is idempotent. -/
theorem normalise_phrase_idempotent (P : String) :
    normalise_phrase (normalise_phrase P) = normalise_phrase P :=
  normalise_phrase_idem P

/-- C6: `load_wordlist` returns exactly the ordered list of trailing tokens
described by the claim — blank lines and `#`-comment lines skipped, a
single-token line contributing its token, a multi-token line its last token,
duplicates kept — whenever that list is non-empty. -/
theorem load_wordlist_trailing_tokens (fileLines : List (List Char))
    (h : fileLines.filterMap specLineToken ≠ []) :
    load_wordlist fileLines = Except.ok (fileLines.filterMap specLineToken) := by
  have hfm : fileLines.filterMap lineWord = fileLines.filterMap specLineToken :=
    congrArg (fun f => fileLines.filterMap f) (funext lineWord_eq_specLineToken)
  unfold load_wordlist
  rw [hfm, if_neg (by simp [h])]

theorem load_wordlist_trailing_tokens_witness :
    ([("# comment".data), ("".data), ("11111 apple".data), ("banana".data),
        ("  ".data)].filterMap specLineToken) ≠ [] ∧
    load_wordlist [("# comment".data), ("".data), ("11111 apple".data),
        ("banana".data), ("  ".data)] =
      Except.ok ([("# comment".data), ("".data), ("11111 apple".data),
        ("banana".data), ("  ".data)].filterMap specLineToken) :=
  ⟨by decide, load_wordlist_trailing_tokens _ (by decide)⟩

/-- C7: `load_wordlist` fails with the distinct `"Wordlist is empty"` error
exactly when the parsed word sequence is empty, and returns successfully
exactly when it is non-empty. -/
theorem load_wordlist_empty_iff (fileLines : List (List Char)) :
    (load_wordlist fileLines =
        Except.error (WordlistError.wordlistError "Wordlist is empty") ↔
      fileLines.filterMap lineWord = []) ∧
    ((∃ ws, load_wordlist fileLines = Except.ok ws) ↔
      fileLines.filterMap lineWord ≠ []) := by
  unfold load_wordlist
  by_cases h : fileLines.filterMap lineWord = []
  · simp [h]
  · simp [h, List.isEmpty_iff]

/-- C8 (failing input): at `out_len = 33 > 32` the code raises nothing and
silently returns the whole 32-byte digest — there is no `InvalidLength`
error path in `hkdf_child` at all. -/
theorem hkdf_child_over_length_silently_capped :
    hkdf_child testVectorMasterKey LABEL_HOT 33 =
      hmacSha256 testVectorMasterKey (utf8Encode LABEL_HOT) ∧
    (hkdf_child testVectorMasterKey LABEL_HOT 33).length = 32 := by
  constructor
  · exact List.take_of_length_le (by rw [hmacSha256_length]; omega)
  · simp [hkdf_child, List.length_take, hmacSha256_length]

/-- C9 (failing input): at `count = 0` and `count = -1` the code raises
nothing and returns the empty passphrase string — there is no
`InvalidCount` error path in `bytes_to_phrase` at all. -/
theorem bytes_to_phrase_nonpositive_count_returns_empty :
    bytes_to_phrase testVectorHotKey testWordlist8 0 "-" = "" ∧
    bytes_to_phrase testVectorHotKey testWordlist8 (-1) "-" = "" := by
  constructor <;> decide

/-- C10: `hkdf_child` always returns exactly `min out_len 32` bytes: the
full requested length for `out_len ≤ 32`, and the silently capped 32-byte
digest beyond that. -/
theorem hkdf_child_length (master_key : List Nat) (label : String) (out_len : Nat) :
    (hkdf_child master_key label out_len).length = min out_len 32 := by
  simp [hkdf_child, List.length_take, hmacSha256_length]

end Vaultphrases
